import Mathlib

/-!
Verification development for the `rag_agent` repository: shallow embeddings
of the rate limiter, retry wrapper, chat endpoints, JWT auth helpers,
document processor and DOCX template processor, together with theorems
settling the specification claims about them.
-/

deriving instance DecidableEq for Except

namespace RagAgent

/-! ## Rate limiter (`src/app/services/rate_limiter.py`)

`RateLimiter.requests` is a Python dict mapping timestamps to counts; we
model it as an association list with unique keys (every reachable state
has unique keys, and the operations below preserve that).  Timestamps are
integers (seconds); `window_size` is 60. -/

/-- The `self.requests` dict: timestamp → count. -/
abbrev ReqMap := List (Int × Nat)

/-- The dict-comprehension filter keeping `ts > now - timedelta(seconds=60)`. -/
def pruneReqs (st : ReqMap) (now : Int) : ReqMap :=
  st.filter (fun p => now - 60 < p.1)

/-- `sum(self.requests.values())`. -/
def totalReqs (st : ReqMap) : Nat :=
  (st.map Prod.snd).sum

/-- `current_count` as computed by `acquire`: the sum of counts after pruning. -/
def currentCount (st : ReqMap) (now : Int) : Nat :=
  totalReqs (pruneReqs st now)

/-- `self.requests[now] = self.requests.get(now, 0) + 1` on an association
list with unique keys: bump the entry at `now`, or add one. -/
def insertReq (now : Int) : ReqMap → ReqMap
  | [] => [(now, 1)]
  | (t, c) :: rest =>
    if t = now then (t, c + 1) :: rest else (t, c) :: insertReq now rest

/-- `RateLimiter.acquire`: prune old entries, reject when the count has
reached `rpm`, otherwise record a request at `now`.  Returns the value of
the call and the updated `requests` dict. -/
def acquire (rpm : Nat) (st : ReqMap) (now : Int) : Bool × ReqMap :=
  let pruned := pruneReqs st now
  let c := totalReqs pruned
  if rpm ≤ c then (false, pruned)
  else (true, insertReq now pruned)

/-- Running a sequence of `acquire` calls from a given state. -/
def runAcquires (rpm : Nat) (st : ReqMap) (times : List Int) : ReqMap :=
  times.foldl (fun s t => (acquire rpm s t).2) st

/-- Timestamp `t` lies within the trailing 60-second window ending at `now`. -/
def inWindow (now t : Int) : Prop := now - 60 < t ∧ t ≤ now

instance (now t : Int) : Decidable (inWindow now t) := by
  unfold inWindow; infer_instance

/-- Sum of recorded counts whose timestamps lie within the trailing
60-second window ending at `now`. -/
def windowSum (st : ReqMap) (now : Int) : Nat :=
  totalReqs (st.filter (fun p => decide (inWindow now p.1)))

/-- Modelled from the spec: a fixed-window rate limiter over a "fixed,
non-sliding 60-second window", whose count covers only the requests
recorded since the last multiple-of-60 boundary (the count thus resets at
each window boundary).  Used only to compare with the implemented
`acquire`. -/
def fixedWindowAcquire (rpm : Nat) (st : ReqMap) (now : Int) : Bool × ReqMap :=
  let pruned := st.filter (fun p => 60 * (now / 60) ≤ p.1)
  let c := totalReqs pruned
  if rpm ≤ c then (false, pruned)
  else (true, insertReq now pruned)

theorem totalReqs_nil : totalReqs [] = 0 := rfl

theorem totalReqs_cons (p : Int × Nat) (st : ReqMap) :
    totalReqs (p :: st) = p.2 + totalReqs st := by
  simp [totalReqs]

theorem totalReqs_insertReq (now : Int) (st : ReqMap) :
    totalReqs (insertReq now st) = totalReqs st + 1 := by
  induction st with
  | nil => simp [insertReq, totalReqs]
  | cons p rest ih =>
    obtain ⟨t, c⟩ := p
    by_cases h : t = now
    · simp [insertReq, h, totalReqs_cons]; omega
    · simp [insertReq, h, totalReqs_cons, ih]; omega

theorem totalReqs_filter_le (P : Int × Nat → Bool) (st : ReqMap) :
    totalReqs (st.filter P) ≤ totalReqs st := by
  induction st with
  | nil => simp [totalReqs]
  | cons p rest ih =>
    by_cases h : P p
    · simp [List.filter_cons, h, totalReqs_cons]; omega
    · simp [List.filter_cons, h, totalReqs_cons]; omega

theorem windowSum_le_totalReqs (st : ReqMap) (now : Int) :
    windowSum st now ≤ totalReqs st :=
  totalReqs_filter_le _ st

/-- After any single `acquire`, the total recorded count is at most
`max rpm` of the prior total and `rpm` itself. -/
theorem totalReqs_acquire_le (rpm : Nat) (st : ReqMap) (now : Int)
    (h : totalReqs st ≤ rpm) : totalReqs (acquire rpm st now).2 ≤ rpm := by
  unfold acquire
  set pruned := pruneReqs st now with hpr
  have hple : totalReqs pruned ≤ totalReqs st := totalReqs_filter_le _ st
  by_cases hc : rpm ≤ totalReqs pruned
  · simp only [hc, if_pos]
    omega
  · simp only [hc, if_neg, not_false_iff]
    rw [totalReqs_insertReq]
    omega

/-- Invariant: starting from the empty request map, after any sequence of
`acquire` calls the total recorded count is at most `rpm`. -/
theorem totalReqs_runAcquires_le (rpm : Nat) (times : List Int)
    (st : ReqMap) (h : totalReqs st ≤ rpm) :
    totalReqs (runAcquires rpm st times) ≤ rpm := by
  induction times generalizing st with
  | nil => simpa [runAcquires] using h
  | cons t rest ih =>
    simp only [runAcquires, List.foldl_cons]
    exact ih _ (totalReqs_acquire_le rpm st t h)

theorem totalReqs_filter_insertReq (P : Int × Nat → Bool) (now : Int)
    (st : ReqMap) (hP : ∀ c : Nat, P (now, c) = true) :
    totalReqs ((insertReq now st).filter P) = totalReqs (st.filter P) + 1 := by
  induction st with
  | nil => simp [insertReq, List.filter_cons, hP, totalReqs]
  | cons p rest ih =>
    obtain ⟨t, c⟩ := p
    by_cases h : t = now
    · subst h
      simp [insertReq, List.filter_cons, hP, totalReqs_cons]
      omega
    · simp only [insertReq, if_neg h, List.filter_cons]
      by_cases hp : P (t, c)
      · simp only [hp, if_pos, totalReqs_cons, ih]
        omega
      · simp [hp, ih]

theorem windowSum_insertReq (now : Int) (st : ReqMap) :
    windowSum (insertReq now st) now = windowSum st now + 1 := by
  unfold windowSum
  exact totalReqs_filter_insertReq _ now st
    (fun c => by simp [inWindow])

theorem windowSum_pruneReqs (st : ReqMap) (now : Int) :
    windowSum (pruneReqs st now) now = windowSum st now := by
  unfold windowSum pruneReqs
  rw [List.filter_filter]
  congr 1
  apply List.filter_congr
  intro p _
  by_cases h : inWindow now p.1
  · have h1 : now - 60 < p.1 := h.1
    simp [h, h1]
  · simp [h]

theorem pruneReqs_idem (st : ReqMap) (now : Int) :
    pruneReqs (pruneReqs st now) now = pruneReqs st now := by
  unfold pruneReqs
  rw [List.filter_filter]
  apply List.filter_congr
  intro p _
  by_cases h : now - 60 < p.1 <;> simp [h]

/-- hypothesis form: every recorded timestamp is at most `now` (true of any
state produced by calls at non-decreasing wall-clock times). -/
def timesLE (st : ReqMap) (now : Int) : Prop := ∀ p ∈ st, p.1 ≤ now

theorem currentCount_eq_windowSum (st : ReqMap) (now : Int)
    (h : timesLE st now) : currentCount st now = windowSum st now := by
  unfold currentCount windowSum pruneReqs
  congr 1
  apply List.filter_congr
  intro p hp
  by_cases hw : now - 60 < p.1
  · simp [hw, inWindow, h p hp]
  · simp [hw, inWindow]

/-! ### Claim theorems for the rate limiter -/

/-- C2 counterexample: with `rpm = 1` and one request recorded 10 seconds
ago, the in-window request count equals 1 — it does not *exceed* the
threshold — yet `acquire` rejects the call.  The claim's "returns False
exactly when the count exceeds rpm" is therefore false as stated. -/
theorem acquire_rejects_at_threshold :
    (acquire 1 [((0 : Int), 1)] 10).1 = false ∧
      currentCount [((0 : Int), 1)] 10 = 1 ∧ ¬ (1 < 1) := by
  refine ⟨by decide, by decide, by decide⟩

/-- C2 (amended): `acquire` returns `False` exactly when the number of
requests recorded within the trailing 60-second window *reaches or
exceeds* `rpm`; a rejected call records nothing (the map is merely pruned
of expired entries), and an accepted call records one request at the
current time. -/
theorem acquire_spec (rpm : Nat) (st : ReqMap) (now : Int)
    (h : timesLE st now) :
    ((acquire rpm st now).1 = false ↔ rpm ≤ windowSum st now) ∧
      ((acquire rpm st now).1 = false →
        (acquire rpm st now).2 = pruneReqs st now) ∧
      ((acquire rpm st now).1 = true →
        (acquire rpm st now).2 = insertReq now (pruneReqs st now)) := by
  have hcc : currentCount st now = windowSum st now :=
    currentCount_eq_windowSum st now h
  unfold currentCount at hcc
  unfold acquire
  by_cases hc : rpm ≤ totalReqs (pruneReqs st now)
  · simp only [hc, if_pos]
    refine ⟨?_, ?_, ?_⟩ <;> simp [← hcc, hc]
  · simp only [hc, if_neg, not_false_iff]
    refine ⟨?_, ?_, ?_⟩ <;> simp [← hcc, hc]

/-- C2 witness: instantiating `acquire_spec` at `rpm = 2`, one in-window
request, current time 10. -/
theorem acquire_spec_witness :
    ((acquire 2 [((0 : Int), 1)] 10).1 = false ↔
        2 ≤ windowSum [((0 : Int), 1)] 10) ∧
      ((acquire 2 [((0 : Int), 1)] 10).1 = false →
        (acquire 2 [((0 : Int), 1)] 10).2 = pruneReqs [((0 : Int), 1)] 10) ∧
      ((acquire 2 [((0 : Int), 1)] 10).1 = true →
        (acquire 2 [((0 : Int), 1)] 10).2 =
          insertReq 10 (pruneReqs [((0 : Int), 1)] 10)) :=
  acquire_spec 2 [((0 : Int), 1)] 10 (by
    intro p hp
    simp at hp
    simp [hp])

/-- C4 counterexample: `rpm = 1`, one request recorded at `t = 50`, next
call at `t = 70`.  A fixed-window limiter whose 60-second window resets at
the boundary `t = 60` counts zero requests and accepts, but the
implemented `acquire` still counts the request from 20 seconds ago and
rejects: the limiter is not fixed-window. -/
theorem acquire_ne_fixedWindow :
    (acquire 1 [((50 : Int), 1)] 70).1 = false ∧
      (fixedWindowAcquire 1 [((50 : Int), 1)] 70).1 = true ∧
      windowSum [((50 : Int), 1)] 70 = 1 := by
  refine ⟨by decide, by decide, by decide⟩

/-- C4 (amended): rate limiting is sliding-window: the outcome and the
resulting state of `acquire` depend only on the requests recorded within
the trailing 60 seconds before the call — entries at or before
`now - 60` are pruned and never counted, so the count decays continuously
as entries age out rather than resetting at a fixed window boundary. -/
theorem acquire_sliding_window (rpm : Nat) (st : ReqMap) (now : Int) :
    acquire rpm st now = acquire rpm (pruneReqs st now) now := by
  unfold acquire
  rw [pruneReqs_idem]

/-- C10: starting from the empty request map, after every sequence of
`acquire` calls the sum of recorded request counts whose timestamps lie
within the trailing 60-second window (ending at any time `t`) is at most
`rpm`; moreover a successful `acquire` increases the in-window total by
exactly one and a rejected `acquire` adds no entry. -/
theorem rateLimiter_invariant (rpm : Nat) (times : List Int) :
    (∀ t : Int, windowSum (runAcquires rpm [] times) t ≤ rpm) ∧
      (∀ (st : ReqMap) (now : Int), (acquire rpm st now).1 = true →
        windowSum (acquire rpm st now).2 now = windowSum st now + 1) ∧
      (∀ (st : ReqMap) (now : Int), (acquire rpm st now).1 = false →
        (acquire rpm st now).2 = pruneReqs st now) := by
  refine ⟨?_, ?_, ?_⟩
  · intro t
    calc windowSum (runAcquires rpm [] times) t
        ≤ totalReqs (runAcquires rpm [] times) := windowSum_le_totalReqs _ t
      _ ≤ rpm := totalReqs_runAcquires_le rpm times [] (by simp [totalReqs])
  · intro st now hacc
    unfold acquire at hacc ⊢
    by_cases hc : rpm ≤ totalReqs (pruneReqs st now)
    · simp [hc] at hacc
    · simp only [hc, if_neg, not_false_iff]
      rw [windowSum_insertReq, windowSum_pruneReqs]
  · intro st now hrej
    unfold acquire at hrej ⊢
    by_cases hc : rpm ≤ totalReqs (pruneReqs st now)
    · simp [hc]
    · simp [hc] at hrej

/-- C10 witness: instantiating `rateLimiter_invariant` at `rpm = 1` and the
call sequence `[0, 10, 70]`, and discharging the inner hypotheses on the
concrete accepted call at time 0 and the concrete rejected call at
time 10. -/
theorem rateLimiter_invariant_witness :
    windowSum (runAcquires 1 [] [(0 : Int), 10, 70]) 70 ≤ 1 ∧
      windowSum (acquire 1 [] (0 : Int)).2 0 = windowSum [] (0 : Int) + 1 ∧
      (acquire 1 [((0 : Int), 1)] 10).2 = pruneReqs [((0 : Int), 1)] 10 := by
  obtain ⟨h1, h2, h3⟩ := rateLimiter_invariant 1 [(0 : Int), 10, 70]
  exact ⟨h1 70, h2 [] 0 (by decide), h3 [((0 : Int), 1)] 10 (by decide)⟩

/-! ## Retry wrapper (`OpenAIRateLimiter.__call__`,
`src/app/services/rate_limiter.py`)

The wrapper runs `for attempt in range(retry_count)`: each attempt either
returns the wrapped coroutine's value, or raises; a failure on the last
attempt (`attempt == retry_count - 1`) re-raises, earlier failures sleep
`2 ** attempt` seconds and continue.  We model the wrapped coroutine as a
function from the attempt index to `Except`, and return both the overall
outcome (`none` only in the degenerate `retry_count = 0` case, where the
Python wrapper falls through the loop and returns `None`) and the list of
sleeps performed. -/

/-- The retry loop body, with `rem` iterations of `range(n)` remaining at
index `attempt`. -/
def retryGo (f : Nat → Except ε α) (n : Nat) :
    Nat → Nat → Option (Except ε α) × List Nat
  | _, 0 => (none, [])
  | attempt, rem + 1 =>
    match f attempt with
    | .ok a => (some (.ok a), [])
    | .error e =>
      if attempt = n - 1 then (some (.error e), [])
      else
        let p := retryGo f n (attempt + 1) rem
        (p.1, 2 ^ attempt :: p.2)

/-- The wrapper produced by `OpenAIRateLimiter.__call__`: run the retry
loop over `range(n)` starting at attempt 0. -/
def retryCall (f : Nat → Except ε α) (n : Nat) :
    Option (Except ε α) × List Nat :=
  retryGo f n 0 n

theorem retryGo_succ (f : Nat → Except ε α) (n attempt rem : Nat) :
    retryGo f n attempt (rem + 1) =
      match f attempt with
      | .ok a => (some (.ok a), [])
      | .error e =>
        if attempt = n - 1 then (some (.error e), [])
        else ((retryGo f n (attempt + 1) rem).1,
          2 ^ attempt :: (retryGo f n (attempt + 1) rem).2) := rfl

theorem retryGo_all_fail (f : Nat → Except ε α) (err : Nat → ε) (n : Nat) :
    ∀ rem attempt, attempt + rem = n → 0 < rem →
      (∀ j, attempt ≤ j → j < n → f j = .error (err j)) →
      retryGo f n attempt rem =
        (some (.error (err (n - 1))),
          (List.range' attempt (rem - 1)).map (fun j => 2 ^ j)) := by
  intro rem
  induction rem with
  | zero => omega
  | succ r ih =>
    intro attempt hsum _ hf
    have hfa : f attempt = .error (err attempt) := hf attempt le_rfl (by omega)
    rw [retryGo_succ, hfa]
    match r, hsum with
    | 0, hsum =>
      have ha : attempt = n - 1 := by omega
      simp [ha]
    | r' + 1, hsum =>
      have ha : ¬ attempt = n - 1 := by omega
      have hrec := ih (attempt + 1) (by omega) (by omega)
        (fun j hj hj2 => hf j (by omega) hj2)
      simp only [ha, if_neg, not_false_iff, hrec]
      have hr : attempt :: List.range' (attempt + 1) r' =
          List.range' attempt (r' + 1) := (List.range'_succ attempt r' 1).symm
      simp [← hr, Prod.ext_iff]

theorem retryGo_first_success (f : Nat → Except ε α) (err : Nat → ε)
    (n k : Nat) (a : α) :
    ∀ rem attempt, attempt + rem = n → attempt ≤ k → k < n →
      (∀ j, attempt ≤ j → j < k → f j = .error (err j)) →
      f k = .ok a →
      retryGo f n attempt rem =
        (some (.ok a), (List.range' attempt (k - attempt)).map (fun j => 2 ^ j)) := by
  intro rem
  induction rem with
  | zero => omega
  | succ r ih =>
    intro attempt hsum hak hkn hfail hok
    by_cases hek : attempt = k
    · subst hek
      rw [retryGo_succ, hok]
      simp
    · have hlt : attempt < k := lt_of_le_of_ne hak hek
      have hfa : f attempt = .error (err attempt) := hfail attempt le_rfl hlt
      have ha : ¬ attempt = n - 1 := by omega
      have hrec := ih (attempt + 1) (by omega) (by omega) hkn
        (fun j hj hj2 => hfail j (by omega) hj2) hok
      rw [retryGo_succ, hfa]
      simp only [ha, if_neg, not_false_iff, hrec]
      have hkk : k - attempt = (k - (attempt + 1)) + 1 := by omega
      rw [hkk, List.range'_succ]
      simp [Prod.ext_iff]

/-- C5: the retry wrapper's behaviour.  If every attempt `0, …, n-1`
fails, the loop sleeps `2^0, …, 2^(n-2)` seconds between consecutive
attempts and re-raises the final attempt's exception; if attempt `k` is
the first to succeed, the loop sleeps `2^0, …, 2^(k-1)` seconds and
returns attempt `k`'s result with no further attempts. -/
theorem retryCall_spec (f : Nat → Except ε α) (err : Nat → ε) (n k : Nat)
    (a : α) :
    (0 < n → (∀ j, j < n → f j = .error (err j)) →
      retryCall f n =
        (some (.error (err (n - 1))),
          (List.range (n - 1)).map (fun j => 2 ^ j))) ∧
    (k < n → (∀ j, j < k → f j = .error (err j)) → f k = .ok a →
      retryCall f n =
        (some (.ok a), (List.range k).map (fun j => 2 ^ j))) := by
  constructor
  · intro hn hf
    have h := retryGo_all_fail f err n n 0 (by omega) hn
      (fun j _ hj2 => hf j hj2)
    rw [retryCall, h, List.range_eq_range' (n - 1)]
  · intro hkn hfail hok
    have h := retryGo_first_success f err n k a n 0 (by omega) (by omega) hkn
      (fun j _ hj2 => hfail j hj2) hok
    rw [retryCall, h, List.range_eq_range' k]
    simp

/-- C5 witness: with the default `retry_count = 3` and a coroutine that
fails on attempt 0 and succeeds on attempt 1, the wrapper sleeps 1 second
(`2^0`) and returns the attempt-1 result. -/
theorem retryCall_spec_witness :
    retryCall (fun j => if j = 0 then .error "boom" else .ok 42) 3 =
      (some (Except.ok 42), [1]) := by
  have h := (retryCall_spec (ε := String) (α := Nat)
    (fun j => if j = 0 then .error "boom" else .ok 42)
    (fun _ => "boom") 3 1 42).2
  have := h (by omega) (by intro j hj; interval_cases j; simp) (by simp)
  simpa using this

/-! ## Chat endpoints (`src/api/routes/chat.py`,
`src/services/chat_service.py`)

`query_documents` re-raises any exception (`raise e`), so the `/query`
handler's `except Exception` turns it into an HTTP 500.
`generate_from_template`, by contrast, wraps its whole body in
`try/except Exception` and *returns* a normal `ChatResponse` describing
the error, so the `/template` handler's own `except` is unreachable.  The
try-block bodies are sequences of external SDK calls (vector search,
OpenAI, file IO); we pass their outcome in as an `Except` value. -/

structure SourceInfo where
  content : String
  document_id : String
  similarity : Rat
  deriving Repr, DecidableEq

structure ChatResponse where
  answer : String
  sources : List SourceInfo
  template_used : Option String
  deriving Repr, DecidableEq

structure HTTPError where
  status_code : Nat
  detail : String
  deriving Repr, DecidableEq

/-- `generate_from_template` (chat_service.py lines 91-205): any exception
from the try block is caught and converted into a normal response whose
`answer` reports the error. -/
def generate_from_template (template_id : String)
    (body : Except String ChatResponse) : ChatResponse :=
  match body with
  | .ok r => r
  | .error e =>
    { answer := "An error occurred while processing the template: " ++ e
      sources := []
      template_used := some template_id }

/-- The `/query` handler (chat.py lines 8-24). -/
def queryEndpoint (result : Except String ChatResponse) :
    Except HTTPError ChatResponse :=
  match result with
  | .ok r => .ok r
  | .error e => .error ⟨500, "Error processing query: " ++ e⟩

/-- The `/template` handler (chat.py lines 26-49): `not request.template_id`
rejects both a missing and an empty template id with HTTP 400. -/
def templateEndpoint (template_id : Option String)
    (body : Except String ChatResponse) :
    Except HTTPError ChatResponse :=
  match template_id with
  | none => .error ⟨400, "Template ID is required"⟩
  | some tid =>
    if tid = "" then .error ⟨400, "Template ID is required"⟩
    else .ok (generate_from_template tid body)

/-- C3 counterexample: a failure during template generation *does* yield a
successful (HTTP 200) response: the exception is swallowed inside
`generate_from_template` and reported in the `answer` field of a normal
`ChatResponse`, so the `/template` handler returns it as a 200. -/
theorem template_failure_yields_success :
    templateEndpoint (some "t1") (.error "boom") =
      .ok { answer := "An error occurred while processing the template: boom"
            sources := []
            template_used := some "t1" } := rfl

/-- C3 (amended): an exception that propagates to the `/query` handler is
translated into a generic HTTP 500 error, and a success is passed through;
but an exception during template generation is caught inside
`generate_from_template` and returned as a successful response whose
answer describes the error, so the `/template` handler yields HTTP 200 for
it. -/
theorem endpoint_error_translation (e : String) (r : ChatResponse)
    (tid : String) (htid : tid ≠ "") :
    queryEndpoint (.error e) = .error ⟨500, "Error processing query: " ++ e⟩ ∧
      queryEndpoint (.ok r) = .ok r ∧
      templateEndpoint (some tid) (.error e) =
        .ok { answer := "An error occurred while processing the template: " ++ e
              sources := []
              template_used := some tid } := by
  refine ⟨rfl, rfl, ?_⟩
  simp [templateEndpoint, htid, generate_from_template]

/-- C3 witness: instantiating `endpoint_error_translation` at a concrete
error, response and template id. -/
theorem endpoint_error_translation_witness :
    queryEndpoint (.error "down") =
        .error ⟨500, "Error processing query: " ++ "down"⟩ ∧
      queryEndpoint (.ok ⟨"hi", [], none⟩) = .ok ⟨"hi", [], none⟩ ∧
      templateEndpoint (some "t1") (.error "down") =
        .ok { answer := "An error occurred while processing the template: "
                ++ "down"
              sources := []
              template_used := some "t1" } :=
  endpoint_error_translation "down" ⟨"hi", [], none⟩ "t1" (by decide)

/-! ## JWT auth (`src/services/auth.py`, `src/api/routes/auth.py`)

`create_access_token` and `get_current_user` delegate the encoding to the
`python-jose` library; we model that library by its contract: an encoded
token carries its claims, signing key and algorithm, and `jwt.decode`
returns the claims exactly when the key matches, the algorithm is
allowed, and the token is not expired (`exp` in the future).  Times are
integer seconds. -/

/-- The claims dict as used here: `sub` and `exp`. -/
structure TokenClaims where
  sub : Option String
  exp : Option Int
  deriving Repr, DecidableEq

/-- An encoded JWT, modelled symbolically by what went into it. -/
structure EncodedJWT where
  claims : TokenClaims
  key : String
  alg : String
  deriving Repr, DecidableEq

def SECRET_KEY : String := "placeholder_secret_key"

def ALGORITHM : String := "HS256"

def ACCESS_TOKEN_EXPIRE_MINUTES : Int := 30

/-- Modelled from the spec: the crypto library's `jwt.encode`. -/
def jwtEncode (claims : TokenClaims) (key : String) (alg : String) :
    EncodedJWT :=
  ⟨claims, key, alg⟩

/-- The expiry check of `jwt.decode`: a token with an `exp` claim is valid
only strictly before it. -/
def jwtExpOk (claims : TokenClaims) (now : Int) : Bool :=
  match claims.exp with
  | some e => decide (now < e)
  | none => true

/-- Modelled from the spec: the crypto library's `jwt.decode` contract —
returns the claims when key and algorithm match and the token has not
expired; otherwise raises a `JWTError` (modelled as `none`). -/
def jwtDecode (tok : EncodedJWT) (key : String) (algs : List String)
    (now : Int) : Option TokenClaims :=
  if tok.key = key && algs.contains tok.alg && jwtExpOk tok.claims now then
    some tok.claims
  else none

/-- `create_access_token` (auth.py lines 30-42): copy the data, add an
`exp` of `now + expires_delta` (default 30 minutes), and encode with the
module's secret key and algorithm.  `expires_delta` is in seconds. -/
def create_access_token (data : TokenClaims) (expires_delta : Option Int)
    (now : Int) : EncodedJWT :=
  let expire := now +
    (match expires_delta with
      | some d => d
      | none => ACCESS_TOKEN_EXPIRE_MINUTES * 60)
  jwtEncode { data with exp := some expire } SECRET_KEY ALGORITHM

/-- The dict `{"user_id": user_id}` returned by `get_current_user`. -/
structure CurrentUser where
  user_id : String
  deriving Repr, DecidableEq

/-- `get_current_user` (auth.py lines 44-64): decode, read `sub`, reject a
missing subject or any `JWTError` with a 401. -/
def get_current_user (tok : EncodedJWT) (now : Int) :
    Except HTTPError CurrentUser :=
  match jwtDecode tok SECRET_KEY [ALGORITHM] now with
  | none => .error ⟨401, "Could not validate credentials"⟩
  | some payload =>
    match payload.sub with
    | none => .error ⟨401, "Could not validate credentials"⟩
    | some uid => .ok ⟨uid⟩

/-- The token issued by the `/token` endpoint (routes/auth.py lines
22-41): `create_access_token(data={"sub": user_id}, expires_delta=30min)`. -/
def login_token (user_id : String) (now : Int) : EncodedJWT :=
  create_access_token ⟨some user_id, none⟩
    (some (ACCESS_TOKEN_EXPIRE_MINUTES * 60)) now

/-- C7: JWT issuance and verification round-trip on the subject: a token
issued for user `u` at time `now₀` is accepted by `get_current_user` at
any time before its 30-minute expiry, under the same secret key, and
yields exactly `{"user_id": u}`. -/
theorem jwt_roundtrip (u : String) (nowIssue nowCheck : Int)
    (h : nowCheck < nowIssue + 30 * 60) :
    get_current_user (login_token u nowIssue) nowCheck = .ok ⟨u⟩ := by
  unfold get_current_user login_token create_access_token jwtEncode jwtDecode
  simp [jwtExpOk, ACCESS_TOKEN_EXPIRE_MINUTES]
  rw [if_pos (show nowCheck < nowIssue + 1800 by omega)]

/-- C7 witness: a token issued at time 0 for user `"123"` is accepted 60
seconds later. -/
theorem jwt_roundtrip_witness :
    (0 : Int) + 60 < 0 + 30 * 60 ∧
      get_current_user (login_token "123" 0) 60 = .ok ⟨"123"⟩ :=
  ⟨by norm_num, jwt_roundtrip "123" 0 60 (by norm_num)⟩

/-! ## Document processor (`src/services/document_processor.py`,
`src/models/documents.py`)

`_process_pdf_sync` iterates over the PDF's pages and produces one chunk
per page whose extracted text is non-blank; no tokenizer is involved.  We
model the PDF-reading step (PyPDF2) by the list of extracted page texts,
or the wrapped error `_process_pdf` raises when reading fails.  The
randomly generated `id`/`created_at` defaults and the unused `embedding`
field of `DocumentChunk` are omitted. -/

inductive DocumentStatus where
  | pending
  | processing
  | completed
  | error
  deriving Repr, DecidableEq

inductive MetaValue where
  | str (s : String)
  | nat (n : Nat)
  deriving Repr, DecidableEq

/-- The `metadata` dict: string keys to values. -/
abbrev Metadata := List (String × MetaValue)

/-- Setting one key of a metadata dict (unique keys). -/
def metaSet (key : String) (v : MetaValue) : Metadata → Metadata
  | [] => [(key, v)]
  | (k, w) :: rest =>
    if k = key then (k, v) :: rest else (k, w) :: metaSet key v rest

/-- `dict.update` with the given key/value pairs. -/
def metaUpdate (m : Metadata) (kvs : List (String × MetaValue)) : Metadata :=
  kvs.foldl (fun acc kv => metaSet kv.1 kv.2 acc) m

/-- `dict.get`. -/
def metaGet (m : Metadata) (key : String) : Option MetaValue :=
  (m.find? (fun kv => kv.1 = key)).map Prod.snd

structure Document where
  id : String
  user_id : String
  filename : String
  file_path : String
  metadata : Metadata
  status : DocumentStatus
  error_message : Option String
  deriving Repr, DecidableEq

structure DocumentChunk where
  document_id : String
  user_id : String
  content : String
  metadata : Metadata
  deriving Repr, DecidableEq

/-- The document-processing exceptions of `document_processor.py`,
together with `ValueError` (raised by `generate_chunks` for unsupported
file types). -/
inductive ProcError where
  | fileNotFound (msg : String)
  | invalidFile (msg : String)
  | fileSizeError (msg : String)
  | valueError (msg : String)
  | processingError (msg : String)
  deriving Repr, DecidableEq

/-- `str.endswith(suffix)`. -/
def strEndsWith (s suffix : String) : Bool :=
  suffix.data.isSuffixOf s.data

/-- ASCII lower-casing of one character, as `str.lower()` does for the
ASCII filenames at issue. -/
def lowerChar (c : Char) : Char :=
  if 65 ≤ c.toNat ∧ c.toNat ≤ 90 then Char.ofNat (c.toNat + 32) else c

/-- `str.lower()`. -/
def strToLower (s : String) : String :=
  ⟨s.data.map lowerChar⟩

/-- `not text.strip()`: the text consists of whitespace only. -/
def isBlank (s : String) : Bool :=
  s.data.all (fun c => c.isWhitespace)

/-- The chunk built for one PDF page (`_process_pdf_sync` lines 154-164);
`pageNum` is 0-based, the stored `page_number` is 1-based. -/
def pageChunk (doc : Document) (pageNum : Nat) (text : String) :
    DocumentChunk :=
  { document_id := doc.id
    user_id := doc.user_id
    content := text
    metadata := [("page_number", .nat (pageNum + 1)), ("source", .str "pdf")] }

/-- `_process_pdf_sync`: one chunk per page, skipping pages whose
extracted text is blank (`if not text.strip(): continue`). -/
def process_pdf_sync (doc : Document) (pages : List String) :
    List DocumentChunk :=
  pages.enum.filterMap
    (fun p => if isBlank p.2 then none else some (pageChunk doc p.1 p.2))

/-- `generate_chunks`: dispatch on the lower-cased filename; only `.pdf`
is processed, everything else raises `ValueError`.  `pdfResult` is the
outcome of reading the PDF (the page texts, or the error `_process_pdf`
raises). -/
def generate_chunks (doc : Document)
    (pdfResult : Except ProcError (List String)) :
    Except ProcError (List DocumentChunk) :=
  if strEndsWith (strToLower doc.filename) ".pdf" then
    match pdfResult with
    | .ok pages => .ok (process_pdf_sync doc pages)
    | .error e => .error e
  else
    .error (.valueError ("Unsupported file type: " ++ doc.filename))

/-- The error message `process_document` stores for each exception class
(lines 96-107); `ValueError` and `DocumentProcessingError` fall into the
generic `except Exception` clause. -/
def errMsg : ProcError → String
  | .fileNotFound m => "File not found: " ++ m
  | .invalidFile m => "Invalid file: " ++ m
  | .fileSizeError m => "File size error: " ++ m
  | .valueError m => "Processing error: " ++ m
  | .processingError m => "Processing error: " ++ m

/-- `process_document`: set status PROCESSING, generate chunks, update the
metadata (`chunk_count`, `processed_at`, and `file_size` from
`os.path.getsize`, which can itself fail — the `fileSize` parameter), set
status COMPLETED; any exception is caught and stored as an ERROR status
with a message. -/
def process_document (doc : Document)
    (pdfResult : Except ProcError (List String))
    (fileSize : Except String Nat) (processedAt : String) : Document :=
  let doc1 := { doc with status := DocumentStatus.processing }
  match generate_chunks doc1 pdfResult with
  | .error e =>
    { doc1 with status := DocumentStatus.error, error_message := some (errMsg e) }
  | .ok chunks =>
    match fileSize with
    | .error e =>
      { doc1 with
        status := DocumentStatus.error
        error_message := some ("Processing error: " ++ e) }
    | .ok n =>
      { doc1 with
        metadata := metaUpdate doc1.metadata
          [("chunk_count", .nat chunks.length),
           ("processed_at", .str processedAt),
           ("file_size", .nat n)]
        status := DocumentStatus.completed }

/-- A sample document record. -/
def exDoc : Document :=
  { id := "d1"
    user_id := "u1"
    filename := "doc.pdf"
    file_path := "/tmp/doc.pdf"
    metadata := []
    status := DocumentStatus.pending
    error_message := none }

theorem errMsg_ne_empty (e : ProcError) : errMsg e ≠ "" := by
  have h : ∀ s t : String, 0 < s.length → s ++ t ≠ "" := by
    intro s t hs heq
    have hlen := congrArg String.length heq
    simp [String.length_append] at hlen
    omega
  cases e <;> exact h _ _ (by decide)

theorem metaGet_metaSet_self (key : String) (v : MetaValue) (m : Metadata) :
    metaGet (metaSet key v m) key = some v := by
  induction m with
  | nil => simp [metaSet, metaGet, List.find?]
  | cons kv rest ih =>
    obtain ⟨k, w⟩ := kv
    by_cases h : k = key
    · simp [metaSet, h, metaGet, List.find?]
    · simp only [metaSet, h, if_neg, not_false_iff]
      simpa [metaGet, List.find?, h] using ih

theorem metaGet_metaSet_ne (key key' : String) (v : MetaValue)
    (m : Metadata) (h : key ≠ key') :
    metaGet (metaSet key v m) key' = metaGet m key' := by
  induction m with
  | nil => simp [metaSet, metaGet, List.find?, h]
  | cons kv rest ih =>
    obtain ⟨k, w⟩ := kv
    by_cases hk : k = key
    · subst hk
      simp [metaSet, metaGet, List.find?, h]
    · simp only [metaSet, hk, if_neg, not_false_iff]
      by_cases hk' : k = key'
      · simp [metaGet, List.find?, hk']
      · simpa [metaGet, List.find?, hk'] using ih

theorem metaGet_chunk_count (m : Metadata) (c n : Nat) (pAt : String) :
    metaGet (metaUpdate m
      [("chunk_count", .nat c), ("processed_at", .str pAt),
       ("file_size", .nat n)]) "chunk_count" = some (.nat c) := by
  simp only [metaUpdate, List.foldl_cons, List.foldl_nil]
  rw [metaGet_metaSet_ne _ _ _ _ (by decide),
    metaGet_metaSet_ne _ _ _ _ (by decide),
    metaGet_metaSet_self]

/-- C9: `process_document` is total and returns the same document record
(identity fields untouched); when chunk generation and the metadata
update both succeed the result has status COMPLETED and its metadata
contains the chunk count; on any exception the result has status ERROR
and a non-empty error message. -/
theorem process_document_spec (doc : Document)
    (pdfResult : Except ProcError (List String))
    (fileSize : Except String Nat) (pAt : String) :
    ((process_document doc pdfResult fileSize pAt).id = doc.id ∧
      (process_document doc pdfResult fileSize pAt).user_id = doc.user_id ∧
      (process_document doc pdfResult fileSize pAt).filename = doc.filename ∧
      (process_document doc pdfResult fileSize pAt).file_path = doc.file_path) ∧
    (∀ chunks n,
      generate_chunks { doc with status := DocumentStatus.processing }
          pdfResult = .ok chunks →
      fileSize = .ok n →
      (process_document doc pdfResult fileSize pAt).status =
          DocumentStatus.completed ∧
        metaGet (process_document doc pdfResult fileSize pAt).metadata
          "chunk_count" = some (.nat chunks.length)) ∧
    (∀ e, generate_chunks { doc with status := DocumentStatus.processing }
          pdfResult = .error e →
      (process_document doc pdfResult fileSize pAt).status =
          DocumentStatus.error ∧
        ∃ m, (process_document doc pdfResult fileSize pAt).error_message =
            some m ∧ m ≠ "") ∧
    (∀ chunks e,
      generate_chunks { doc with status := DocumentStatus.processing }
          pdfResult = .ok chunks →
      fileSize = .error e →
      (process_document doc pdfResult fileSize pAt).status =
          DocumentStatus.error ∧
        ∃ m, (process_document doc pdfResult fileSize pAt).error_message =
            some m ∧ m ≠ "") := by
  refine ⟨?_, ?_, ?_, ?_⟩
  · unfold process_document
    rcases hg : generate_chunks { doc with status := DocumentStatus.processing }
        pdfResult with e | chunks
    · simp [hg]
    · rcases hf : fileSize with e | n <;> simp [hg, hf]
  · intro chunks n hg hf
    unfold process_document
    simp only [hg, hf]
    exact ⟨by trivial, metaGet_chunk_count _ _ _ _⟩
  · intro e hg
    unfold process_document
    simp only [hg]
    exact ⟨by trivial, errMsg e, by trivial, errMsg_ne_empty e⟩
  · intro chunks e hg hf
    unfold process_document
    simp only [hg, hf]
    refine ⟨by trivial, "Processing error: " ++ e, by trivial, ?_⟩
    intro heq
    have hlen := congrArg String.length heq
    simp [String.length_append] at hlen
    exact absurd hlen.1 (by decide)

/-- C9 witness: instantiating `process_document_spec` on a concrete
one-page PDF that succeeds, and on a concrete unsupported-type failure. -/
theorem process_document_spec_witness :
    ((process_document exDoc (.ok ["hello"]) (.ok 5) "now").status =
        DocumentStatus.completed ∧
      metaGet (process_document exDoc (.ok ["hello"]) (.ok 5) "now").metadata
        "chunk_count" = some (.nat 1)) ∧
    ((process_document { exDoc with filename := "a.txt" } (.ok ["hello"])
        (.ok 5) "now").status = DocumentStatus.error ∧
      ∃ m, (process_document { exDoc with filename := "a.txt" }
          (.ok ["hello"]) (.ok 5) "now").error_message = some m ∧ m ≠ "") := by
  constructor
  · have h := (process_document_spec exDoc (.ok ["hello"]) (.ok 5) "now").2.1
      [{ document_id := "d1", user_id := "u1", content := "hello",
         metadata := [("page_number", .nat 1), ("source", .str "pdf")] }]
      5 (by decide) rfl
    simpa using h
  · exact (process_document_spec { exDoc with filename := "a.txt" }
      (.ok ["hello"]) (.ok 5) "now").2.2.1
      (.valueError ("Unsupported file type: " ++ "a.txt")) (by decide)

theorem filterMap_skip_if (l : List α) (p : α → Bool) (f : α → β) :
    l.filterMap (fun x => if p x then none else some (f x)) =
      (l.filter (fun x => !p x)).map f := by
  induction l with
  | nil => rfl
  | cons a t ih =>
    by_cases h : p a <;> simp [List.filterMap_cons, List.filter_cons, h, ih]

theorem map_snd_filter_enumFrom (l : List α) (q : α → Bool) :
    ∀ n, ((List.enumFrom n l).filter (fun p => q p.2)).map Prod.snd =
      l.filter q := by
  induction l with
  | nil => intro n; rfl
  | cons a t ih =>
    intro n
    by_cases h : q a <;>
      simp [List.enumFrom, List.filter_cons, h, ih (n + 1)]

/-- C1 counterexample: chunk boundaries follow document pages, not token
counts.  Two documents with the same extracted text but different page
splits produce different chunks (one chunk per page), and consecutive
chunks share no overlap (no non-empty suffix of the first chunk is a
prefix of the second). -/
theorem chunking_follows_pages :
    ((process_pdf_sync exDoc ["ab", "cd"]).map DocumentChunk.content =
        ["ab", "cd"]) ∧
      ((process_pdf_sync exDoc ["abc", "d"]).map DocumentChunk.content =
        ["abc", "d"]) ∧
      ("ab" ++ "cd" = "abc" ++ "d") ∧
      (∀ s : List Char, s <:+ "ab".data → s <+: "cd".data → s = []) := by
  refine ⟨by decide, by decide, rfl, ?_⟩
  intro s hs hp
  have hmem : s ∈ List.tails "ab".data := (List.mem_tails _ _).mpr hs
  fin_cases hmem
  · exact absurd hp (by decide)
  · exact absurd hp (by decide)
  · rfl

/-- C1 (amended): for every PDF document ingested, chunking is page-based:
each page whose extracted text is non-blank yields exactly one chunk
containing that page's text (with its 1-based page number in the chunk
metadata), in page order; no token counting and no overlap between
consecutive chunks is involved. -/
theorem process_pdf_sync_page_chunks (doc : Document) (pages : List String) :
    process_pdf_sync doc pages =
        (pages.enum.filter (fun p => !isBlank p.2)).map
          (fun p => pageChunk doc p.1 p.2) ∧
      (process_pdf_sync doc pages).map DocumentChunk.content =
        pages.filter (fun t => !isBlank t) := by
  have h1 : process_pdf_sync doc pages =
      (pages.enum.filter (fun p => !isBlank p.2)).map
        (fun p => pageChunk doc p.1 p.2) :=
    filterMap_skip_if _ _ _
  refine ⟨h1, ?_⟩
  rw [h1, List.map_map]
  have h2 : (DocumentChunk.content ∘ fun p : Nat × String =>
      pageChunk doc p.1 p.2) = Prod.snd := by
    funext p
    rfl
  rw [h2]
  have h3 := map_snd_filter_enumFrom pages (fun t => !isBlank t) 0
  simpa [List.enum] using h3

/-- C6 (code bug evaluated at the failing input): a `.docx` document — a
file type the `/upload` endpoint accepts and the repository's own
`test_docx_processor.py` expects to process to COMPLETED — makes
`generate_chunks` fail with an unsupported-file-type `ValueError`, and
`process_document` therefore returns status ERROR. -/
theorem docx_rejected_by_generate_chunks :
    generate_chunks { exDoc with filename := "test.docx" } (.ok ["Test Content"]) =
        .error (.valueError "Unsupported file type: test.docx") ∧
      (process_document { exDoc with filename := "test.docx" }
        (.ok ["Test Content"]) (.ok 5) "now").status = DocumentStatus.error := by
  exact ⟨by decide, by decide⟩

/-! ## Template processor (`src/src/services/template_processor.py`)

`process_template` walks the document's paragraphs and table cells and
calls `_replace_variables` on each paragraph: for each `(name, value)` of
the data dict in order, `re.sub` replaces every occurrence of the literal
pattern `\{\{name\}\}` (the name is `re.escape`d, so the pattern is the
literal text `{{name}}`) with the value.  `re.sub` scans left to right,
replacing non-overlapping matches in a single pass and never rescanning a
replacement.  Paragraph text is modelled as a list of characters; the
model substitutes the value literally (so it assumes values free of
regex replacement escapes such as backslash-group references). -/

/-- Paragraph text. -/
abbrev TText := List Char

/-- The literal pattern `{{name}}`. -/
def mkPat (name : TText) : TText :=
  '{' :: '{' :: (name ++ ['}', '}'])

/-- The scanner of `re.sub` with a literal pattern: scan left to right;
`skip` characters of an already-replaced match remain to be consumed; at
`skip = 0`, a match emits `repl` and consumes the match, anything else is
copied. -/
def subAux (pat repl : TText) : Nat → TText → TText
  | _, [] => []
  | s + 1, _ :: rest => subAux pat repl s rest
  | 0, c :: rest =>
    if pat.isPrefixOf (c :: rest) then
      repl ++ subAux pat repl (pat.length - 1) rest
    else
      c :: subAux pat repl 0 rest

/-- `re.sub` with a literal pattern: one left-to-right pass, replacing
each non-overlapping occurrence of `pat` with `repl`, never rescanning a
replacement. -/
def replaceAll (pat repl t : TText) : TText :=
  subAux pat repl 0 t

/-- Whether the literal pattern occurs in `t`. -/
def containsLit (pat : TText) : TText → Bool
  | [] => false
  | c :: rest => pat.isPrefixOf (c :: rest) || containsLit pat rest

/-- One `re.sub` call of `_replace_variables`: substitute `{{name}}` by
`value` throughout the text. -/
def substVar (name value : TText) (t : TText) : TText :=
  replaceAll (mkPat name) value t

/-- `_replace_variables`: substitute each data entry in order. -/
def replace_variables (data : List (TText × TText)) (t : TText) : TText :=
  data.foldl (fun acc kv => substVar kv.1 kv.2 acc) t

/-- The text still contains a `{{name}}` placeholder. -/
def containsVar (name : TText) (t : TText) : Bool :=
  containsLit (mkPat name) t

/-- A DOCX document as `python-docx` exposes it here: body paragraphs, and
tables of rows of cells of paragraphs. -/
structure DocxDocument where
  paragraphs : List TText
  tables : List (List (List (List TText)))

/-- `TemplateProcessor.process_template`: replace variables in every body
paragraph and in every paragraph of every table cell. -/
def process_template (data : List (TText × TText)) (doc : DocxDocument) :
    DocxDocument :=
  { paragraphs := doc.paragraphs.map (replace_variables data)
    tables := doc.tables.map (fun tbl =>
      tbl.map (fun row => row.map (fun cell =>
        cell.map (replace_variables data)))) }

/-- C8 counterexample: with `data = {"a": "X", "b": "{{a}}"}` (in that
order) and a template paragraph `{{b}}`, processing first substitutes
`{{a}}` (no occurrence), then replaces `{{b}}` with the value `{{a}}` —
so the returned document still contains the placeholder `{{a}}` although
`"a"` is a key of the data. -/
theorem placeholder_reintroduced :
    (process_template [(['a'], ['X']), (['b'], mkPat ['a'])]
        { paragraphs := [mkPat ['b']], tables := [] }).paragraphs =
        [mkPat ['a']] ∧
      containsVar ['a'] (mkPat ['a']) = true ∧
      (['a'], ['X']) ∈ [(['a'], ['X']), (['b'], mkPat ['a'])] := by
  refine ⟨by decide, by decide, by decide⟩

/-! ### Well-formed template text

For the amended completeness statement we parse a paragraph into literal
runs (brace-free) and complete placeholders `{{name}}` with non-empty
brace-free names, and track how the scanner acts on that structure. -/

/-- No brace characters occur in the text. -/
def braceFree (l : TText) : Prop := ∀ c ∈ l, c ≠ '{' ∧ c ≠ '}'

instance (l : TText) : Decidable (braceFree l) := by
  unfold braceFree
  infer_instance

/-- A key usable as a placeholder name: non-empty and brace-free. -/
def keyOK (k : TText) : Prop := k ≠ [] ∧ braceFree k

instance (k : TText) : Decidable (keyOK k) := by
  unfold keyOK
  infer_instance

/-- The caller-supplied data: names usable as keys, values that are
brace-free and contain no regex replacement escapes. -/
def dataOK (data : List (TText × TText)) : Prop :=
  ∀ kv ∈ data, keyOK kv.1 ∧ braceFree kv.2 ∧ '\\' ∉ kv.2

instance (data : List (TText × TText)) : Decidable (dataOK data) := by
  unfold dataOK
  infer_instance

/-- One segment of a parsed paragraph. -/
inductive Seg where
  | lit (l : TText)
  | ph (name : TText)
  deriving Repr, DecidableEq

def renderSeg : Seg → TText
  | .lit l => l
  | .ph name => mkPat name

def render (segs : List Seg) : TText := (segs.map renderSeg).flatten

def segOK : Seg → Prop
  | .lit l => braceFree l
  | .ph name => keyOK name

instance (s : Seg) : Decidable (segOK s) := by
  cases s <;> (unfold segOK; infer_instance)

/-- Well-formed paragraph text: braces occur only as complete placeholders
with non-empty brace-free names. -/
def wfText (t : TText) : Prop :=
  ∃ segs, (∀ s ∈ segs, segOK s) ∧ t = render segs

theorem subAux_nil (pat repl : TText) (s : Nat) : subAux pat repl s [] = [] := by
  cases s <;> rfl

theorem subAux_succ (pat repl : TText) (s : Nat) (c : Char) (rest : TText) :
    subAux pat repl (s + 1) (c :: rest) = subAux pat repl s rest := rfl

theorem subAux_zero_cons (pat repl : TText) (c : Char) (rest : TText) :
    subAux pat repl 0 (c :: rest) =
      if pat.isPrefixOf (c :: rest) then
        repl ++ subAux pat repl (pat.length - 1) rest
      else c :: subAux pat repl 0 rest := rfl

theorem subAux_skip (pat repl : TText) :
    ∀ (t : TText) (s : Nat), subAux pat repl s t = subAux pat repl 0 (t.drop s) := by
  intro t
  induction t with
  | nil => intro s; rw [subAux_nil, List.drop_nil, subAux_nil]
  | cons c rest ih =>
    intro s
    cases s with
    | zero => rfl
    | succ s' =>
      rw [subAux_succ, List.drop_succ_cons]
      exact ih s'

theorem cons_isPrefixOf_eq (a b : Char) (l r : TText) :
    (a :: l).isPrefixOf (b :: r) = (a == b && l.isPrefixOf r) := rfl

/-- Brace-free names that head the same `...}}`-terminated text are equal. -/
theorem key_prefix_eq :
    ∀ (k k' rest : TText), braceFree k → braceFree k' →
      (k ++ ['}', '}']) <+: (k' ++ ['}', '}'] ++ rest) → k = k' := by
  intro k
  induction k with
  | nil =>
    intro k' rest _ hk' h
    cases k' with
    | nil => rfl
    | cons b k2 =>
      simp only [List.nil_append, List.cons_append, List.cons_prefix_cons] at h
      exact absurd h.1.symm (hk' b (by simp)).2
  | cons a k2 ih =>
    intro k' rest hk hk' h
    cases k' with
    | nil =>
      simp only [List.cons_append, List.nil_append, List.cons_prefix_cons] at h
      exact absurd h.1 (hk a (by simp)).2
    | cons b k2' =>
      simp only [List.cons_append, List.cons_prefix_cons] at h
      obtain ⟨hab, h2⟩ := h
      have hk2 : braceFree k2 := fun c hc => hk c (by simp [hc])
      have hk2' : braceFree k2' := fun c hc => hk' c (by simp [hc])
      rw [hab, ih k2' rest hk2 hk2' (by simpa using h2)]

/-- The scanner copies a character that cannot start a match. -/
theorem subAux_cons_ne (ps repl : TText) (c : Char) (t : TText)
    (hc : c ≠ '{') :
    subAux ('{' :: ps) repl 0 (c :: t) = c :: subAux ('{' :: ps) repl 0 t := by
  rw [subAux_zero_cons, cons_isPrefixOf_eq]
  have h1 : ('{' == c) = false := by
    simp [Ne.symm hc]
  rw [h1, Bool.false_and]
  simp

/-- The scanner copies a whole brace-free literal. -/
theorem replaceAll_lit_append (ps repl l rest : TText) (hl : braceFree l) :
    subAux ('{' :: ps) repl 0 (l ++ rest) =
      l ++ subAux ('{' :: ps) repl 0 rest := by
  induction l with
  | nil => rfl
  | cons c l2 ih =>
    have hbf : braceFree l2 := fun x hx => hl x (by simp [hx])
    rw [List.cons_append, subAux_cons_ne _ _ _ _ (hl c (by simp)).1, ih hbf]
    rfl

/-- The scanner replaces a leading `{{k}}` and continues after it. -/
theorem replaceAll_match (k repl rest : TText) :
    replaceAll (mkPat k) repl (mkPat k ++ rest) =
      repl ++ replaceAll (mkPat k) repl rest := by
  have hshape : mkPat k ++ rest =
      '{' :: (('{' :: (k ++ ['}', '}'])) ++ rest) := rfl
  rw [replaceAll, hshape, subAux_zero_cons]
  have hp : (mkPat k).isPrefixOf
      ('{' :: (('{' :: (k ++ ['}', '}'])) ++ rest)) = true := by
    rw [← hshape]
    exact List.isPrefixOf_iff_prefix.mpr (List.prefix_append _ _)
  rw [hp, if_pos rfl, subAux_skip]
  have hlen : (mkPat k).length - 1 = ('{' :: (k ++ ['}', '}'])).length := by
    simp [mkPat]
  rw [hlen, List.drop_left]
  rfl

/-- The scanner copies a placeholder whose name differs from the key. -/
theorem replaceAll_skip_ph (k k' repl rest : TText) (hk : keyOK k)
    (hk' : keyOK k') (hne : k' ≠ k) :
    replaceAll (mkPat k) repl (mkPat k' ++ rest) =
      mkPat k' ++ replaceAll (mkPat k) repl rest := by
  obtain ⟨a, k2, hsplit⟩ : ∃ a k2, k' = a :: k2 := by
    cases k' with
    | nil => exact absurd rfl hk'.1
    | cons a k2 => exact ⟨a, k2, rfl⟩
  have ha : a ≠ '{' := (hk'.2 a (by simp [hsplit])).1
  have hshape : mkPat k' ++ rest =
      '{' :: '{' :: ((k' ++ ['}', '}']) ++ rest) := rfl
  -- position 0: a full-pattern match would force k = k'
  have h0 : (mkPat k).isPrefixOf (mkPat k' ++ rest) = false := by
    rcases hb : (mkPat k).isPrefixOf (mkPat k' ++ rest) with _ | _
    · rfl
    · exfalso
      have hpre := List.isPrefixOf_iff_prefix.mp hb
      rw [hshape] at hpre
      have hpre2 : (k ++ ['}', '}']) <+: (k' ++ ['}', '}'] ++ rest) := by
        simpa [mkPat, List.cons_prefix_cons, List.append_assoc] using hpre
      exact hne ((key_prefix_eq k k' rest hk.2 hk'.2 hpre2).symm)
  rw [replaceAll, hshape, subAux_zero_cons]
  rw [← hshape, h0]
  simp only [Bool.false_eq_true, if_false]
  -- position 1: the pattern needs a second '{', but the name starts with `a`
  have h1 : subAux (mkPat k) repl 0 ('{' :: ((k' ++ ['}', '}']) ++ rest)) =
      '{' :: subAux (mkPat k) repl 0 ((k' ++ ['}', '}']) ++ rest) := by
    rw [subAux_zero_cons]
    have hcond : (mkPat k).isPrefixOf ('{' :: ((k' ++ ['}', '}']) ++ rest)) =
        false := by
      rw [show (k' ++ ['}', '}']) ++ rest = a :: (k2 ++ ['}', '}'] ++ rest) by
        simp [hsplit]]
      rw [mkPat, cons_isPrefixOf_eq, cons_isPrefixOf_eq]
      have hne2 : ('{' == a) = false := by
        simp [Ne.symm ha]
      rw [hne2, Bool.false_and, Bool.and_false]
    rw [hcond]
    simp
  rw [h1]
  -- the name and the closing braces are copied verbatim
  have h2 : subAux (mkPat k) repl 0 ((k' ++ ['}', '}']) ++ rest) =
      k' ++ subAux (mkPat k) repl 0 (['}', '}'] ++ rest) := by
    rw [List.append_assoc]
    exact replaceAll_lit_append _ _ _ _ hk'.2
  have h3 : subAux (mkPat k) repl 0 (['}', '}'] ++ rest) =
      '}' :: '}' :: subAux (mkPat k) repl 0 rest := by
    rw [show (['}', '}'] ++ rest : TText) = '}' :: '}' :: rest from rfl]
    rw [show (mkPat k : TText) = '{' :: ('{' :: (k ++ ['}', '}'])) from rfl]
    rw [subAux_cons_ne _ _ _ _ (by decide), subAux_cons_ne _ _ _ _ (by decide)]
  rw [h2, h3]
  simp [mkPat, replaceAll]

theorem containsLit_cons_ne (ps : TText) (c : Char) (t : TText)
    (hc : c ≠ '{') :
    containsLit ('{' :: ps) (c :: t) = containsLit ('{' :: ps) t := by
  rw [containsLit, cons_isPrefixOf_eq]
  have h1 : ('{' == c) = false := by
    simp [Ne.symm hc]
  rw [h1, Bool.false_and, Bool.false_or]

theorem containsLit_lit_append (ps l rest : TText) (hl : braceFree l) :
    containsLit ('{' :: ps) (l ++ rest) = containsLit ('{' :: ps) rest := by
  induction l with
  | nil => rfl
  | cons c l2 ih =>
    have hbf : braceFree l2 := fun x hx => hl x (by simp [hx])
    rw [List.cons_append, containsLit_cons_ne _ _ _ (hl c (by simp)).1, ih hbf]

theorem containsLit_skip_ph (k k' rest : TText) (hk : keyOK k)
    (hk' : keyOK k') (hne : k' ≠ k) :
    containsLit (mkPat k) (mkPat k' ++ rest) = containsLit (mkPat k) rest := by
  obtain ⟨a, k2, hsplit⟩ : ∃ a k2, k' = a :: k2 := by
    cases k' with
    | nil => exact absurd rfl hk'.1
    | cons a k2 => exact ⟨a, k2, rfl⟩
  have ha : a ≠ '{' := (hk'.2 a (by simp [hsplit])).1
  have hshape : mkPat k' ++ rest =
      '{' :: '{' :: ((k' ++ ['}', '}']) ++ rest) := rfl
  have h0 : (mkPat k).isPrefixOf (mkPat k' ++ rest) = false := by
    rcases hb : (mkPat k).isPrefixOf (mkPat k' ++ rest) with _ | _
    · rfl
    · exfalso
      have hpre := List.isPrefixOf_iff_prefix.mp hb
      rw [hshape] at hpre
      have hpre2 : (k ++ ['}', '}']) <+: (k' ++ ['}', '}'] ++ rest) := by
        simpa [mkPat, List.cons_prefix_cons, List.append_assoc] using hpre
      exact hne ((key_prefix_eq k k' rest hk.2 hk'.2 hpre2).symm)
  rw [hshape, containsLit]
  rw [← hshape, h0, Bool.false_or]
  have h1 : containsLit (mkPat k) ('{' :: ((k' ++ ['}', '}']) ++ rest)) =
      containsLit (mkPat k) ((k' ++ ['}', '}']) ++ rest) := by
    rw [containsLit]
    have hcond : (mkPat k).isPrefixOf ('{' :: ((k' ++ ['}', '}']) ++ rest)) =
        false := by
      rw [show (k' ++ ['}', '}']) ++ rest = a :: (k2 ++ ['}', '}'] ++ rest) by
        simp [hsplit]]
      rw [mkPat, cons_isPrefixOf_eq, cons_isPrefixOf_eq]
      have hne2 : ('{' == a) = false := by
        simp [Ne.symm ha]
      rw [hne2, Bool.false_and, Bool.and_false]
    rw [hcond, Bool.false_or]
  rw [h1, List.append_assoc,
    show (mkPat k : TText) = '{' :: ('{' :: (k ++ ['}', '}'])) from rfl,
    containsLit_lit_append _ _ _ hk'.2]
  rw [show (['}', '}'] ++ rest : TText) = '}' :: '}' :: rest from rfl]
  rw [containsLit_cons_ne _ _ _ (by decide), containsLit_cons_ne _ _ _ (by decide)]

/-- A rendered well-formed text containing no placeholder named `k` does
not contain the pattern `{{k}}` at all. -/
theorem containsLit_render_false (k : TText) (hk : keyOK k) :
    ∀ segs : List Seg, (∀ s ∈ segs, segOK s) →
      (∀ n, Seg.ph n ∈ segs → n ≠ k) →
      containsLit (mkPat k) (render segs) = false := by
  intro segs
  induction segs with
  | nil => intro _ _; rfl
  | cons s rest ih =>
    intro hok hnm
    have hok2 : ∀ x ∈ rest, segOK x := fun x hx => hok x (by simp [hx])
    have hnm2 : ∀ n, Seg.ph n ∈ rest → n ≠ k := fun n hn => hnm n (by simp [hn])
    cases s with
    | lit l =>
      have hl : braceFree l := hok (.lit l) (by simp)
      rw [render, List.map_cons, List.flatten_cons]
      rw [show renderSeg (Seg.lit l) = l from rfl]
      rw [show (mkPat k : TText) = '{' :: ('{' :: (k ++ ['}', '}'])) from rfl]
      rw [containsLit_lit_append _ _ _ hl]
      exact ih hok2 hnm2
    | ph n =>
      have hn : keyOK n := hok (.ph n) (by simp)
      have hne : n ≠ k := hnm n (by simp)
      rw [render, List.map_cons, List.flatten_cons]
      rw [show renderSeg (Seg.ph n) = mkPat n from rfl]
      rw [containsLit_skip_ph k n _ hk hn hne]
      exact ih hok2 hnm2

/-- The action of substituting key `k` by value `v` on one segment. -/
def substSeg (k v : TText) : Seg → Seg
  | .lit l => .lit l
  | .ph n => if n = k then .lit v else .ph n

/-- One `re.sub` pass acts segment-wise on well-formed text. -/
theorem substVar_render (k v : TText) (hk : keyOK k) :
    ∀ segs : List Seg, (∀ s ∈ segs, segOK s) →
      substVar k v (render segs) = render (segs.map (substSeg k v)) := by
  intro segs
  induction segs with
  | nil => intro _; rfl
  | cons s rest ih =>
    intro hok
    have hok2 : ∀ x ∈ rest, segOK x := fun x hx => hok x (by simp [hx])
    have hrec := ih hok2
    cases s with
    | lit l =>
      have hl : braceFree l := hok (.lit l) (by simp)
      rw [render, List.map_cons, List.flatten_cons,
        show renderSeg (Seg.lit l) = l from rfl]
      rw [substVar, replaceAll,
        show (mkPat k : TText) = '{' :: ('{' :: (k ++ ['}', '}'])) from rfl,
        replaceAll_lit_append _ _ _ _ hl]
      rw [List.map_cons, render, List.map_cons, List.flatten_cons,
        show substSeg k v (Seg.lit l) = Seg.lit l from rfl,
        show renderSeg (Seg.lit l) = l from rfl]
      rw [substVar, replaceAll,
        show (mkPat k : TText) = '{' :: ('{' :: (k ++ ['}', '}'])) from rfl,
        render, render] at hrec
      rw [hrec]
    | ph n =>
      have hn : keyOK n := hok (.ph n) (by simp)
      by_cases hnk : n = k
      · subst hnk
        rw [render, List.map_cons, List.flatten_cons,
          show renderSeg (Seg.ph n) = mkPat n from rfl]
        rw [substVar, replaceAll_match]
        rw [List.map_cons, render, List.map_cons, List.flatten_cons,
          show substSeg n v (Seg.ph n) = Seg.lit v by simp [substSeg],
          show renderSeg (Seg.lit v) = v from rfl]
        rw [substVar, render, render] at hrec
        rw [hrec]
      · rw [render, List.map_cons, List.flatten_cons,
          show renderSeg (Seg.ph n) = mkPat n from rfl]
        rw [substVar, replaceAll_skip_ph k n v _ hk hn hnk]
        rw [List.map_cons, render, List.map_cons, List.flatten_cons,
          show substSeg k v (Seg.ph n) = Seg.ph n by simp [substSeg, hnk],
          show renderSeg (Seg.ph n) = mkPat n from rfl]
        rw [substVar, render, render] at hrec
        rw [hrec]

theorem segOK_map_substSeg (k v : TText) (hv : braceFree v)
    (segs : List Seg) (hok : ∀ s ∈ segs, segOK s) :
    ∀ s ∈ segs.map (substSeg k v), segOK s := by
  intro s hs
  rw [List.mem_map] at hs
  obtain ⟨s0, hs0, rfl⟩ := hs
  cases s0 with
  | lit l => exact hok (.lit l) hs0
  | ph n =>
    by_cases hnk : n = k
    · simpa [substSeg, hnk, segOK] using hv
    · simpa [substSeg, hnk] using hok (.ph n) hs0

/-- Folding all data entries over a parsed paragraph. -/
def substData (data : List (TText × TText)) (segs : List Seg) : List Seg :=
  data.foldl (fun acc kv => acc.map (substSeg kv.1 kv.2)) segs

theorem replace_variables_render (data : List (TText × TText))
    (hd : dataOK data) :
    ∀ segs : List Seg, (∀ s ∈ segs, segOK s) →
      replace_variables data (render segs) = render (substData data segs) := by
  induction data with
  | nil => intro segs _; rfl
  | cons kv rest ih =>
    intro segs hok
    have hkv := hd kv (by simp)
    have hd2 : dataOK rest := fun x hx => hd x (by simp [hx])
    rw [replace_variables, List.foldl_cons,
      substVar_render kv.1 kv.2 hkv.1 segs hok]
    have := ih hd2 (segs.map (substSeg kv.1 kv.2))
      (segOK_map_substSeg kv.1 kv.2 hkv.2.1 segs hok)
    rw [replace_variables] at this
    rw [this]
    rfl

theorem segOK_substData (data : List (TText × TText)) (hd : dataOK data) :
    ∀ segs : List Seg, (∀ s ∈ segs, segOK s) →
      ∀ s ∈ substData data segs, segOK s := by
  induction data with
  | nil => intro segs hok; exact hok
  | cons kv rest ih =>
    intro segs hok
    have hkv := hd kv (by simp)
    have hd2 : dataOK rest := fun x hx => hd x (by simp [hx])
    exact ih hd2 (segs.map (substSeg kv.1 kv.2))
      (segOK_map_substSeg kv.1 kv.2 hkv.2.1 segs hok)

/-- A placeholder surviving the whole fold was present initially and its
name is none of the data keys. -/
theorem ph_mem_substData (data : List (TText × TText)) :
    ∀ (segs : List Seg) (n : TText), Seg.ph n ∈ substData data segs →
      Seg.ph n ∈ segs ∧ ∀ kv ∈ data, n ≠ kv.1 := by
  induction data with
  | nil =>
    intro segs n h
    exact ⟨h, by simp⟩
  | cons kv rest ih =>
    intro segs n h
    obtain ⟨hmem, hrest⟩ := ih (segs.map (substSeg kv.1 kv.2)) n h
    rw [List.mem_map] at hmem
    obtain ⟨s0, hs0, he⟩ := hmem
    cases s0 with
    | lit l => simp [substSeg] at he
    | ph m =>
      by_cases hmk : m = kv.1
      · simp [substSeg, hmk] at he
      · have hmn : m = n := by
          simpa [substSeg, hmk] using he
        subst hmn
        refine ⟨hs0, ?_⟩
        intro kv' hkv'
        rcases List.mem_cons.mp hkv' with h1 | h1
        · subst h1
          exact hmk
        · exact hrest kv' h1

/-- The core of the amended C8: after substituting all data entries into a
well-formed paragraph, no `{{name}}` placeholder for any data key remains. -/
theorem replace_variables_clean (data : List (TText × TText))
    (hd : dataOK data) (t : TText) (hwf : wfText t)
    (name value : TText) (hmem : (name, value) ∈ data) :
    containsVar name (replace_variables data t) = false := by
  obtain ⟨segs, hok, rfl⟩ := hwf
  rw [containsVar, replace_variables_render data hd segs hok]
  apply containsLit_render_false name (hd (name, value) hmem).1
    (substData data segs) (segOK_substData data hd segs hok)
  intro n hn heq
  obtain ⟨_, hkeys⟩ := ph_mem_substData data segs n hn
  exact hkeys (name, value) hmem (by simpa using heq)

/-- C8 (amended): template substitution is complete for caller-supplied
data, provided every data key is a non-empty brace-free name, every value
is brace-free (and free of regex replacement escapes), and every
paragraph of the template is well-formed (braces occur only as complete
`{{name}}` placeholders): then after `process_template(template, data)` no
body paragraph and no table-cell paragraph of the returned document still
contains a `{{name}}` placeholder for any name in `data`. -/
theorem process_template_complete (data : List (TText × TText))
    (doc : DocxDocument) (hd : dataOK data)
    (hp : ∀ t ∈ doc.paragraphs, wfText t)
    (ht : ∀ tbl ∈ doc.tables, ∀ row ∈ tbl, ∀ cell ∈ row, ∀ t ∈ cell, wfText t) :
    (∀ t ∈ (process_template data doc).paragraphs,
        ∀ kv ∈ data, containsVar kv.1 t = false) ∧
      (∀ tbl ∈ (process_template data doc).tables, ∀ row ∈ tbl,
        ∀ cell ∈ row, ∀ t ∈ cell,
          ∀ kv ∈ data, containsVar kv.1 t = false) := by
  constructor
  · intro t htm kv hkv
    rw [process_template] at htm
    simp only [List.mem_map] at htm
    obtain ⟨t0, ht0, rfl⟩ := htm
    exact replace_variables_clean data hd t0 (hp t0 ht0) kv.1 kv.2
      (by simpa using hkv)
  · intro tbl htbl row hrow cell hcell t htm kv hkv
    rw [process_template] at htbl
    simp only [List.mem_map] at htbl
    obtain ⟨tbl0, htbl0, rfl⟩ := htbl
    simp only [List.mem_map] at hrow
    obtain ⟨row0, hrow0, rfl⟩ := hrow
    simp only [List.mem_map] at hcell
    obtain ⟨cell0, hcell0, rfl⟩ := hcell
    simp only [List.mem_map] at htm
    obtain ⟨t0, ht0, rfl⟩ := htm
    exact replace_variables_clean data hd t0
      (ht tbl0 htbl0 row0 hrow0 cell0 hcell0 t0 ht0) kv.1 kv.2
      (by simpa using hkv)

/-- C8 witness: instantiating `process_template_complete` with the data
`{"n": "W"}` on a one-paragraph template `{{n}}` (with its explicit
segment parse), at the processed paragraph and the key `n`. -/
theorem process_template_complete_witness :
    containsVar ['n']
      (replace_variables [(['n'], ['W'])] (mkPat ['n'])) = false := by
  have h := (process_template_complete [(['n'], ['W'])]
    { paragraphs := [mkPat ['n']], tables := [] }
    (by decide)
    (by
      intro t htm
      have ht : t = mkPat ['n'] := by simpa using htm
      subst ht
      refine ⟨[Seg.ph ['n']], ?_, by decide⟩
      intro s hs
      have hs2 : s = Seg.ph ['n'] := by simpa using hs
      subst hs2
      exact (by decide : segOK (Seg.ph ['n'])))
    (by intro tbl htbl; simp at htbl)).1
  exact h (replace_variables [(['n'], ['W'])] (mkPat ['n']))
    (by simp [process_template]) (['n'], ['W']) (by simp)

end RagAgent
